/-
Verification of the `wolfictl check so-name` ABI checker
(`pkg/checks/so_name.go`) against its natural-language specification.

The Go source is embedded shallowly: pure helpers become Lean functions on
`String`/`List Char`; the effectful parts of `diff`/`CheckSoName` are
functions of an explicit environment recording the outcomes of the external
world (file system, network), and `diff` additionally returns the trace of
observable effects it performs, in program order.

Go's `regexp` calls are specialised to the one pattern the source compiles,
`.so.*\d`, with Go `Compile` (leftmost-first, Perl-style) semantics: `.`
matches any character except newline, `\d` an ASCII digit, `.*` is greedy.
-/
import Mathlib

set_option maxRecDepth 4000

deriving instance DecidableEq for Except

namespace Wolfictl

/-- Go regexp `\d`: an ASCII digit. -/
def isGoDigit (c : Char) : Bool := '0' ≤ c && c ≤ '9'

/-- Go `unicode.IsSpace`: the Unicode White_Space property (the full
code-point list from the Unicode table used by Go). -/
def goIsSpace (c : Char) : Bool :=
  let n := c.toNat
  (0x09 ≤ n && n ≤ 0x0D) || n = 0x20 || n = 0x85 || n = 0xA0 || n = 0x1680 ||
    (0x2000 ≤ n && n ≤ 0x200A) || n = 0x2028 || n = 0x2029 || n = 0x202F ||
    n = 0x205F || n = 0x3000

/-- Whether `strings.TrimSpace(s) == ""`: every character of `s` is whitespace. -/
def isBlankLine (s : String) : Bool := s.data.all goIsSpace

/-- Go `strings.Split` specialised to a one-character separator (the source
only splits on `"|"` and `"-"`). `splitChar sep l` never returns `[]`. -/
def splitChar (sep : Char) : List Char → List (List Char)
  | [] => [[]]
  | c :: r =>
    match splitChar sep r with
    | p :: ps => if c = sep then [] :: p :: ps else (c :: p) :: ps
    | [] => [[]]

/-- String-level wrapper for `strings.Split(s, sep)` with a 1-char `sep`. -/
def goSplit (s : String) (sep : Char) : List String :=
  (splitChar sep s.data).map List.asString

/-- Go `strings.TrimPrefix`. -/
def goTrimPrefix (s pre : String) : String :=
  if pre.data.isPrefixOf s.data then List.asString (s.data.drop pre.data.length) else s

/-- Go `strings.TrimSuffix`. -/
def goTrimSuffix (s suf : String) : String :=
  if suf.data.isSuffixOf s.data then
    List.asString (s.data.take (s.data.length - suf.data.length))
  else s

/-- Go `strings.ReplaceAll` with a nonempty pattern, by direct scan: at
each position, if `old` is a prefix, emit `new` and skip it. The extra
`Nat` is fuel bounding the number of scan steps, kept structural so the
function computes by kernel reduction; every step consumes at least one
input character, so fuel = input length (as supplied by `replaceAll`)
never runs out. -/
def replaceAllChars (old new : List Char) : Nat → List Char → List Char
  | _, [] => []
  | 0, l => l
  | fuel + 1, c :: r =>
    if old.isPrefixOf (c :: r) ∧ old ≠ [] then
      new ++ replaceAllChars old new fuel ((c :: r).drop old.length)
    else
      c :: replaceAllChars old new fuel r

/-- Go `strings.ReplaceAll(s, old, new)`. -/
def replaceAll (s old new : String) : String :=
  List.asString (replaceAllChars old.data new.data s.data.length s.data)

/-! ### The compiled regex `.so.*\d`

`greedyTail l` models the `.*\d` suffix of the pattern matching a prefix of
`l`: it returns the characters consumed (ending at the *last* digit the
greedy `.*` can reach without crossing a newline), or `none`. -/

/-- The `.*\d` tail of the pattern `.so.*\d`, greedy: consume through the
last digit reachable without crossing a newline. -/
def greedyTail : List Char → Option (List Char)
  | [] => none
  | c :: r =>
    if c = '\n' then none
    else
      match greedyTail r with
      | some t => some (c :: t)
      | none => if isGoDigit c then some [c] else none

/-- A match of `.so.*\d` anchored at the head of the list (leftmost-first,
greedy), returning the matched characters. -/
def matchHere : List Char → Option (List Char)
  | c :: 's' :: 'o' :: rest =>
    if c = '\n' then none
    else (greedyTail rest).map (fun t => c :: 's' :: 'o' :: t)
  | _ => none

/-- Go `reg.FindString` / `FindAllString(s,-1)[0]` for `.so.*\d`: the
leftmost match. -/
def firstMatch : List Char → Option (List Char)
  | [] => none
  | c :: rest =>
    if (matchHere (c :: rest)).isSome then matchHere (c :: rest) else firstMatch rest

/-- The characters before the leftmost match (all of the input if there is
no match): Go `reg.Split(s, -1)[0]` for `.so.*\d`. -/
def beforeMatch : List Char → List Char
  | [] => []
  | c :: rest =>
    if (matchHere (c :: rest)).isSome then [] else c :: beforeMatch rest

/-- Go `reg.FindAllString(filename, -1)[0]` (the version-suffix of a
soname file); `none` models the index-out-of-range panic on no match. -/
def findSoname (s : String) : Option String := (firstMatch s.data).map List.asString

/-- Go `reg.Split(filename, -1)[0]` (the base-name of a soname file). -/
def splitSoname (s : String) : String := List.asString (beforeMatch s.data)

/-- Whether `reg.FindString(s)` is nonempty, i.e. `.so.*\d` matches
somewhere in `s` (a match is never the empty string). -/
def soMatches (s : String) : Bool := (firstMatch s.data).isSome

/-! ### Paths and directory scanning -/

/-- Go `filepath.Base`. -/
def filepathBase (p : String) : String :=
  if p.data = [] then "."
  else
    let q := (p.data.reverse.dropWhile (· = '/'))
    if q = [] then "/"
    else List.asString (q.takeWhile (· ≠ '/')).reverse

/-- Go `filepath.Join` of a directory and a name (no cleaning needed for
the slash-free names the source joins). -/
def joinPath (dir name : String) : String := dir ++ "/" ++ name

/-- The paths `filepath.Walk(dir, ...)` visits, given the files `fs`
present in the file system: the root `dir` itself plus every file under
it. -/
def walkUnder (dir : String) (fs : List String) : List String :=
  dir :: fs.filter (fun p => (dir ++ "/").data.isPrefixOf p.data)

/-- Model of `getSonameFiles`: keep the walked paths whose base name matches the
regex `.so.*\d` (`reg.FindString(filepath.Base(path)) != ""`). -/
def getSonameFiles (walked : List String) : List String :=
  walked.filter (fun p => soMatches (filepathBase p))

/-! ### Data model -/

/-- Structure `NewApkPackage` from `so_name.go`. -/
structure NewApkPackage where
  Arch : String
  Epoch : String
  Version : String
deriving Repr, DecidableEq

/-- The fields of `repository.Package` (the existing APKINDEX entry) the
source reads: `Name` and `Version`. -/
structure RepoPackage where
  Name : String
  Version : String
deriving Repr, DecidableEq

/-- Structure `SoNameOptions` (the configuration fields the pure logic reads). -/
structure SoNameOptions where
  PackageListFilename : String
  Dir : String
  PackagesDir : String
  ApkIndexURL : String
deriving Repr

/-- Model of `errors.Wrapf(err, msg)`: the wrapped error's text. -/
def wrapf (msg cause : String) : String := msg ++ ": " ++ cause

/-- A Go `map[string]V` as an association list: `mapInsert` is `m[k] = v`
(replace the binding if the key is present, otherwise add it), `List.lookup`
is `m[k]`. -/
def mapInsert (m : List (String × α)) (k : String) (v : α) : List (String × α) :=
  if m.any (fun e => e.1 = k) then m.map (fun e => if e.1 = k then (k, v) else e)
  else m ++ [(k, v)]

/-! ### Build manifest reader (`getNewPackages`, `addSubpackages`) -/

/-- The scanner loop of `getNewPackages`: parse the manifest lines into a
map from package name to `NewApkPackage`. Blank lines are skipped; a line
with `≠ 3` pipe fields or `≠ 2` hyphen parts in the version field aborts
with the error the source formats. -/
def parseManifestAux (acc : List (String × NewApkPackage)) :
    List String → Except String (List (String × NewApkPackage))
  | [] => .ok acc
  | line :: rest =>
    if isBlankLine line then parseManifestAux acc rest
    else
      match goSplit line '|' with
      | [arch, packageName, verEpoch] =>
        match goSplit verEpoch '-' with
        | [version, rEpoch] =>
          let epoch := goTrimSuffix (goTrimPrefix rEpoch "r") ".apk"
          parseManifestAux (mapInsert acc packageName ⟨arch, epoch, version⟩) rest
        | vps => .error ("expected 2 version parts but found " ++ toString vps.length)
      | ps => .error ("expected 3 parts but found " ++ toString ps.length ++
          " when scanning " ++ line)

/-- Parse a whole manifest (the body of `getNewPackages` before
`addSubpackages`). -/
def parseManifest (lines : List String) : Except String (List (String × NewApkPackage)) :=
  parseManifestAux [] lines

/-- Model of `addSubpackages`, with the melange-config collaborator
`melange.ReadMelangeConfig(filepath.Join(dir, name + ".yaml"))` modelled as
an oracle `recipes : name ↦ Option (list of subpackage names)` (`none` is a
config that fails to read). Returns the log lines written and the expanded
map: for each package of `m`, in order, each declared subpackage is
inserted carrying the parent's `NewApkPackage`; an unreadable config is
logged and skipped. -/
def addSubpackagesT (dir : String) (recipes : String → Option (List String))
    (m : List (String × NewApkPackage)) :
    List String × List (String × NewApkPackage) :=
  m.foldl (fun acc pv =>
    match recipes pv.1 with
    | none =>
      (acc.1 ++ ["failed to read melange config " ++ joinPath dir (pv.1 ++ ".yaml")], acc.2)
    | some subs => (acc.1, subs.foldl (fun a s => mapInsert a s pv.2) acc.2)) ([], m)

/-- The map `addSubpackages` returns. -/
def addSubpackages (dir : String) (recipes : String → Option (List String))
    (m : List (String × NewApkPackage)) : List (String × NewApkPackage) :=
  (addSubpackagesT dir recipes m).2

/-- Model of `getNewPackages`: read the manifest file (the open/scan outcome is the
`fileLines` argument), parse it, and expand subpackages. -/
def getNewPackages (o : SoNameOptions) (recipes : String → Option (List String))
    (fileLines : Except String (List String)) :
    Except String (List (String × NewApkPackage)) :=
  match fileLines with
  | .error e => .error (wrapf ("opening file " ++ o.PackageListFilename) e)
  | .ok lines => (parseManifest lines).map (addSubpackages o.Dir recipes)

/-! ### `checkSonamesMatch` -/

/-- The error `checkSonamesMatch` formats for a version mismatch. -/
def mismatchMsg (name existingVersion version : String) : String :=
  "soname version check failed, " ++ name ++ " has an existing version " ++
    existingVersion ++ " while new package contains a different version " ++
    version ++ ".  This can cause ABI failures"

/-- The first loop of `checkSonamesMatch`: build the map base-name ↦
version-suffix from the existing soname files (last writer wins). `none`
models the `FindAllString(filename, -1)[0]` panic on a non-matching file. -/
def buildSonameMapAux (acc : List (String × String)) :
    List String → Option (List (String × String))
  | [] => some acc
  | f :: rest =>
    match findSoname f with
    | none => none
    | some version => buildSonameMapAux (mapInsert acc (splitSoname f) version) rest

/-- The second loop of `checkSonamesMatch`: compare each new soname file
against the existing map; `m[name]`'s zero value `""` means "no matching
file, skip". -/
def checkSonamesLoop (m : List (String × String)) :
    List String → Option (Except String Unit)
  | [] => some (.ok ())
  | f :: rest =>
    match findSoname f with
    | none => none
    | some version =>
      let name := splitSoname f
      let existingVersion := (m.lookup name).getD ""
      if existingVersion = "" then checkSonamesLoop m rest
      else if existingVersion ≠ version then
        some (.error (mismatchMsg name existingVersion version))
      else checkSonamesLoop m rest

/-- Model of `checkSonamesMatch(existingSonameFiles, newSonameFiles)`; `none` models
a panic on a file the regex does not match. -/
def checkSonamesMatch (existingSonameFiles newSonameFiles : List String) :
    Option (Except String Unit) :=
  match buildSonameMapAux [] existingSonameFiles with
  | none => none
  | some m => checkSonamesLoop m newSonameFiles

/-! ### The diff engine -/

/-- Model of `os.TempDir()`: a fixed value for the whole process (`$TMPDIR`, by
default `/tmp`); both calls in `diff` return the same directory. -/
def osTempDir : String := "/tmp"

/-- The observable effects `diff` performs, in program order. A
`scanSonames` records the directory walked and the paths the walk visits;
`compareSonames` records the two file lists handed to
`checkSonamesMatch`. -/
inductive Effect where
  | openNew (path : String)
  | untar (dest : String)
  | scanSonames (dir : String) (walked : List String)
  | logMsg (msg : String)
  | download (url : String) (destFile : String)
  | compareSonames (existingFiles newFiles : List String)
deriving Repr, DecidableEq

/-- The outcomes of the external world during one `diff` call:
whether `os.Open` on the new apk, `tar.Untar`, and the HTTP download
succeed (with the underlying error text when not), the relative paths
`tar.Untar` writes beneath its destination, and the files already present
under the temp directory. -/
structure DiffEnv where
  openNew : Except String Unit
  untar : Except String Unit
  download : Except String Unit
  newApkEntries : List String
  tmpPreexisting : List String
deriving Repr

/-- What `diff` returns together with its effect trace. -/
structure DiffResult where
  effects : List Effect
  result : Except String Unit
deriving Repr

/-- The path of the newly built apk:
`filepath.Join(o.PackagesDir, newAPK.Arch, fmt.Sprintf("%s-%s-r%s.apk", ...))`. -/
def newApkFilename (o : SoNameOptions) (newPackageName : String)
    (newAPK : NewApkPackage) : String :=
  joinPath (joinPath o.PackagesDir newAPK.Arch)
    (newPackageName ++ "-" ++ newAPK.Version ++ "-r" ++ newAPK.Epoch ++ ".apk")

/-- The files under the temp directory after `tar.Untar(newFile, dirNewApk)`:
what was already there plus the archive entries joined under the
destination. -/
def diffFs1 (env : DiffEnv) : List String :=
  env.tmpPreexisting ++ env.newApkEntries.map (joinPath osTempDir)

/-- The `newSonameFiles` of `diff`: scan the temp directory after
extracting the new apk. -/
def diffNewSonames (env : DiffEnv) : List String :=
  getSonameFiles (walkUnder osTempDir (diffFs1 env))

/-- Model of `downloadCurrentAPK`: derive the archive URL by
`strings.ReplaceAll(o.ApkIndexURL, "APKINDEX", newPackageName)` and write
the body to the single file `filepath.Join(dirCurrentApk, newPackageName)`
(no extraction). Returns (URL, written path). -/
def downloadCurrentAPK (o : SoNameOptions) (newPackageName dirCurrentApk : String) :
    String × String :=
  (replaceAll o.ApkIndexURL "APKINDEX" newPackageName,
   joinPath dirCurrentApk newPackageName)

/-- Model of `diff(newPackageName, newAPK, existingPackages)`: compare the soname
versions of a newly built apk with the latest published one. Follows the
source's control flow; the effect trace records what it touched. -/
def diff (o : SoNameOptions) (newPackageName : String) (newAPK : NewApkPackage)
    (existingPackages : List (String × RepoPackage)) (env : DiffEnv) : DiffResult :=
  let dirExistingApk := osTempDir
  let dirNewApk := osTempDir
  let filename := newApkFilename o newPackageName newAPK
  match env.openNew with
  | .error e => ⟨[.openNew filename], .error (wrapf ("failed to read " ++ filename) e)⟩
  | .ok _ =>
    match env.untar with
    | .error e =>
      ⟨[.openNew filename, .untar dirNewApk], .error (wrapf "failed to untar new apk" e)⟩
    | .ok _ =>
      let newSonameFiles := diffNewSonames env
      let effs := [Effect.openNew filename, .untar dirNewApk,
        .scanSonames dirNewApk (walkUnder dirNewApk (diffFs1 env))]
      if newSonameFiles = [] then ⟨effs, .ok ()⟩
      else
        match existingPackages.lookup newPackageName with
        | none =>
          ⟨effs ++ [.logMsg ("no existing package found for " ++ newPackageName ++
            ", skipping so name check")], .ok ()⟩
        | some p =>
          let existingFilename := p.Name ++ "-" ++ p.Version ++ ".apk"
          let dl := downloadCurrentAPK o existingFilename dirExistingApk
          let effs2 := effs ++ [Effect.download dl.1 dl.2]
          match env.download with
          | .error e =>
            ⟨effs2, .error (wrapf ("failed to download " ++ newPackageName ++
              " using base URL " ++ o.ApkIndexURL) e)⟩
          | .ok _ =>
            let fs2 := diffFs1 env ++ [dl.2]
            let existingSonameFiles := getSonameFiles (walkUnder dirExistingApk fs2)
            let effs3 := effs2 ++ [Effect.scanSonames dirExistingApk (walkUnder dirExistingApk fs2),
              .compareSonames existingSonameFiles newSonameFiles]
            match checkSonamesMatch existingSonameFiles newSonameFiles with
            | none => ⟨effs3, .error "panic: runtime error: index out of range"⟩
            | some (.error msg) =>
              ⟨effs3, .error (wrapf ("soname files differ, this can cause an ABI break.  Existing soname files " ++
                String.intercalate "," existingSonameFiles ++ ", New soname files " ++
                String.intercalate "," newSonameFiles) msg)⟩
            | some (.ok _) => ⟨effs3, .ok ()⟩

/-! ### Result aggregation (`CheckSoName`) -/

/-- Model of `fmt.Errorf(s)` with no further arguments, as `CheckSoName` calls it on
each diff error: `s` is (mis)used as a format string, so `%%` collapses to
`%`, any other verb becomes `%!v(MISSING)`, and a trailing `%` becomes
`%!(NOVERB)`. Flag/width/precision characters between `%` and the verb are
consumed. (Argument-consuming `*` widths and explicit argument indexes do
not occur in the error texts this repository produces and are treated as
plain verbs.) -/
def errorfNoArgs : Bool → List Char → List Char
  | false, [] => []
  | true, [] => '%' :: '!' :: '(' :: 'N' :: 'O' :: 'V' :: 'E' :: 'R' :: 'B' :: ')' :: []
  | false, c :: r => if c = '%' then errorfNoArgs true r else c :: errorfNoArgs false r
  | true, c :: r =>
    if c = '+' || c = '-' || c = '#' || c = ' ' || c = '.' || isGoDigit c then
      errorfNoArgs true r
    else if c = '%' then '%' :: errorfNoArgs false r
    else '%' :: '!' :: c :: ('(' :: 'M' :: 'I' :: 'S' :: 'S' :: 'I' :: 'N' :: 'G' :: ')' ::
      errorfNoArgs false r)

/-- String-level `fmt.Errorf(s)` with no arguments. -/
def goErrorf (s : String) : String := List.asString (errorfNoArgs false s.data)

/-- Modelled from the spec: `lint.EvalRuleErrors.WrapErrors` is not under
`src/` (only its caller is); per §4.6 it returns nil for an empty sequence
and otherwise a single error whose text lists every contained error on its
own line, verbatim. -/
def wrapErrors (errs : List String) : Except String Unit :=
  match errs with
  | [] => .ok ()
  | _ => .error (String.intercalate "\n" errs)

/-- The external-world outcomes of one `CheckSoName` run: the APKINDEX
fetch, the manifest file read, the melange-config oracle, and the external
outcomes handed to each per-package `diff` call. -/
structure CheckEnv where
  fetch : Except String (List (String × RepoPackage))
  manifestLines : Except String (List String)
  recipes : String → Option (List String)
  diffEnv : String → DiffEnv

/-- Model of `CheckSoName`: fetch the index, read the new-package manifest, diff
every package, and aggregate the failures — each failing package appends
`fmt.Errorf(err.Error())` to the error list, and `WrapErrors` combines
them. -/
def CheckSoName (o : SoNameOptions) (env : CheckEnv) : Except String Unit :=
  match env.fetch with
  | .error e =>
    .error (wrapf ("failed to get APK packages from URL " ++ o.ApkIndexURL) e)
  | .ok existingPackages =>
    match getNewPackages o env.recipes env.manifestLines with
    | .error e => .error (wrapf "failed to get new packages" e)
    | .ok newPackages =>
      let soNameErrors := newPackages.foldl (fun acc pv =>
        match (diff o pv.1 pv.2 existingPackages (env.diffEnv pv.1)).result with
        | .ok _ => acc
        | .error e => acc ++ [goErrorf e]) []
      wrapErrors soNameErrors

/-! ### Specification-side definitions

These follow the wording of the spec/claims (not the source) and are only
used to state refinement theorems and counterexamples against the
source-derived definitions above. -/

/-- The relaxed pattern the compiled regex `.so.*\d` actually recognises:
some non-newline character immediately followed by the literal `so`,
followed — across non-newline characters only — by at least one digit. -/
def SonamePattern (l : List Char) : Prop :=
  ∃ p c t d u, l = p ++ (c :: 's' :: 'o' :: (t ++ (d :: u))) ∧ c ≠ '\n' ∧
    (∀ x ∈ t, x ≠ '\n') ∧ isGoDigit d = true

/-- The claim's literal predicate: the name contains the literal substring
`.so` followed anywhere later by at least one digit. -/
def literalSoPattern : List Char → Bool
  | [] => false
  | c :: t =>
    ((if c = '.' then
        match t with
        | 's' :: 'o' :: u => u.any isGoDigit
        | _ => false
      else false) : Bool) || literalSoPattern t

/-- Spec-side: a manifest line the parser cannot accept — it does not
split into exactly 3 pipe-delimited fields, or its third field does not
split into exactly 2 hyphen-delimited parts. -/
def lineMalformed (line : String) : Bool :=
  match goSplit line '|' with
  | [_, _, verEpoch] => (goSplit verEpoch '-').length != 2
  | _ => true

/-- Spec-side: the version-suffix of the *last* file in `existing` whose
base-name is `n` (Go map insertion is last-writer-wins). -/
def lastVersionFor (existing : List String) (n : String) : Option String :=
  match existing with
  | [] => none
  | g :: rest =>
    match lastVersionFor rest n with
    | some v => some v
    | none => if splitSoname g = n then findSoname g else none

/-- Spec-side: does new file `f` conflict with the last existing soname of
its base-name? -/
def hasConflict (existing : List String) (f : String) : Bool :=
  match lastVersionFor existing (splitSoname f), findSoname f with
  | some ev, some v => ev != v
  | _, _ => false

/-- Spec-side statement of `checkSonamesMatch`: report, for the first new
soname that conflicts with the last-listed existing soname of its
base-name, an error naming the base-name and both version-suffixes;
otherwise succeed. -/
def specCheckSonames (existing nw : List String) : Except String Unit :=
  match nw.find? (fun f => hasConflict existing f) with
  | some f => .error (mismatchMsg (splitSoname f)
      ((lastVersionFor existing (splitSoname f)).getD "") ((findSoname f).getD ""))
  | none => .ok ()

/-! ### Lemmas about the regex model -/

theorem greedyTail_prefix {l t : List Char} (h : greedyTail l = some t) : t <+: l := by
  induction l generalizing t with
  | nil => simp [greedyTail] at h
  | cons c r ih =>
    cases hg : greedyTail r with
    | some t' =>
      simp only [greedyTail, hg] at h
      by_cases hc : c = '\n'
      · rw [if_pos hc] at h; exact absurd h (by simp)
      · rw [if_neg hc] at h
        obtain rfl : c :: t' = t := Option.some.inj h
        obtain ⟨u, hu⟩ := ih hg
        exact ⟨u, by simp [← hu]⟩
    | none =>
      simp only [greedyTail, hg] at h
      by_cases hc : c = '\n'
      · rw [if_pos hc] at h; exact absurd h (by simp)
      · rw [if_neg hc] at h
        by_cases hdc : isGoDigit c
        · rw [if_pos hdc] at h
          obtain rfl : [c] = t := Option.some.inj h
          exact ⟨r, rfl⟩
        · rw [if_neg hdc] at h; exact absurd h (by simp)

theorem greedyTail_shape {l t : List Char} (h : greedyTail l = some t) :
    ∃ t₁ d, t = t₁ ++ [d] ∧ (∀ x ∈ t₁, x ≠ '\n') ∧ isGoDigit d = true := by
  induction l generalizing t with
  | nil => simp [greedyTail] at h
  | cons c r ih =>
    cases hg : greedyTail r with
    | some t' =>
      simp only [greedyTail, hg] at h
      by_cases hc : c = '\n'
      · rw [if_pos hc] at h; exact absurd h (by simp)
      · rw [if_neg hc] at h
        obtain rfl : c :: t' = t := Option.some.inj h
        obtain ⟨t₁, d, rfl, ht₁, hd⟩ := ih hg
        refine ⟨c :: t₁, d, rfl, ?_, hd⟩
        intro x hx
        rcases List.mem_cons.mp hx with rfl | hx
        · exact hc
        · exact ht₁ x hx
    | none =>
      simp only [greedyTail, hg] at h
      by_cases hc : c = '\n'
      · rw [if_pos hc] at h; exact absurd h (by simp)
      · rw [if_neg hc] at h
        by_cases hdc : isGoDigit c
        · rw [if_pos hdc] at h
          obtain rfl : [c] = t := Option.some.inj h
          exact ⟨[], c, rfl, by simp, hdc⟩
        · rw [if_neg hdc] at h; exact absurd h (by simp)

theorem isGoDigit_ne_newline {c : Char} (h : isGoDigit c = true) : c ≠ '\n' := by
  rintro rfl
  exact absurd h (by decide)

theorem greedyTail_isSome_app {t₁ : List Char} {d : Char} (u : List Char)
    (ht : ∀ x ∈ t₁, x ≠ '\n') (hd : isGoDigit d = true) :
    (greedyTail (t₁ ++ (d :: u))).isSome = true := by
  induction t₁ with
  | nil =>
    simp only [List.nil_append, greedyTail]
    rw [if_neg (isGoDigit_ne_newline hd)]
    cases greedyTail u with
    | some t' => simp
    | none => simp [hd]
  | cons x t₁ ih =>
    have hx : x ≠ '\n' := ht x (by simp)
    have ih' := ih (fun y hy => ht y (by simp [hy]))
    obtain ⟨t', hg⟩ := Option.isSome_iff_exists.mp ih'
    simp only [List.cons_append, greedyTail, hg]
    rw [if_neg hx]
    simp only [List.append_eq]
    rw [hg]
    simp

theorem matchHere_eq_some {l m : List Char} (h : matchHere l = some m) :
    ∃ c rest t, l = c :: 's' :: 'o' :: rest ∧ m = c :: 's' :: 'o' :: t ∧
      c ≠ '\n' ∧ greedyTail rest = some t := by
  rw [matchHere.eq_def] at h
  split at h
  · rename_i c rest
    split at h
    · exact absurd h (by simp)
    · rename_i hc
      rw [Option.map_eq_some'] at h
      obtain ⟨t, ht, rfl⟩ := h
      exact ⟨c, rest, t, rfl, rfl, hc, ht⟩
  · simp at h

theorem matchHere_isSome_so {c : Char} {t : List Char} {d : Char} (u : List Char)
    (hc : c ≠ '\n') (ht : ∀ x ∈ t, x ≠ '\n') (hd : isGoDigit d = true) :
    (matchHere (c :: 's' :: 'o' :: (t ++ (d :: u)))).isSome = true := by
  obtain ⟨t', hg⟩ := Option.isSome_iff_exists.mp (greedyTail_isSome_app u ht hd)
  simp only [matchHere, hg]
  rw [if_neg hc]
  simp

/-- The characterisation of the compiled pattern: `.so.*\d` matches
somewhere in `l` iff `l` contains a non-newline character followed by
`so` followed, over non-newline characters, by a digit. -/
theorem firstMatch_isSome_iff (l : List Char) :
    (firstMatch l).isSome = true ↔ SonamePattern l := by
  induction l with
  | nil =>
    constructor
    · intro h; simp [firstMatch] at h
    · rintro ⟨p, c, t, d, u, heq, -, -, -⟩
      exact absurd heq.symm (by simp)
  | cons a r ih =>
    constructor
    · intro h
      by_cases hms : (matchHere (a :: r)).isSome
      · obtain ⟨m, hm⟩ := Option.isSome_iff_exists.mp hms
        obtain ⟨c, rest, t, hl, -, hc, hg⟩ := matchHere_eq_some hm
        obtain ⟨t₁, d, rfl, ht₁, hd⟩ := greedyTail_shape hg
        obtain ⟨u, hu⟩ := greedyTail_prefix hg
        refine ⟨[], c, t₁, d, u, ?_, hc, ht₁, hd⟩
        simp [hl, ← hu]
      · simp only [firstMatch, if_neg hms] at h
        obtain ⟨p, c, t, d, u, heq, hc, ht, hd⟩ := ih.mp h
        exact ⟨a :: p, c, t, d, u, by simp [heq], hc, ht, hd⟩
    · rintro ⟨p, c, t, d, u, heq, hc, ht, hd⟩
      cases p with
      | nil =>
        simp only [List.nil_append] at heq
        rw [heq]
        have hms := matchHere_isSome_so (c := c) (t := t) (d := d) u hc ht hd
        simp only [firstMatch, if_pos hms]
        exact hms
      | cons e p' =>
        simp only [List.cons_append, List.cons.injEq] at heq
        obtain ⟨rfl, hr⟩ := heq
        by_cases hms : (matchHere (a :: r)).isSome
        · simp only [firstMatch, if_pos hms]
          exact hms
        · simp only [firstMatch, if_neg hms]
          exact ih.mpr ⟨p', c, t, d, u, hr, hc, ht, hd⟩

/-- The leftmost-match decomposition behind `splitSoname`/`findSoname`:
if the pattern matches, the input splits as (text before the first match)
++ (the match) ++ (a remainder), a match starts right after the prefix,
and no match starts inside the prefix. -/
theorem firstMatch_decomposition {l m : List Char} (h : firstMatch l = some m) :
    ∃ rest, l = beforeMatch l ++ m ++ rest ∧ matchHere (m ++ rest) = some m ∧
      ∀ k, k < (beforeMatch l).length → matchHere (l.drop k) = none := by
  induction l generalizing m with
  | nil => simp [firstMatch] at h
  | cons a r ih =>
    by_cases hms : (matchHere (a :: r)).isSome
    · simp only [firstMatch, if_pos hms] at h
      obtain ⟨c, rest0, t, hl, hmm, hc, hg⟩ := matchHere_eq_some h
      obtain ⟨u, hu⟩ := greedyTail_prefix hg
      have hb : beforeMatch (a :: r) = [] := by
        simp only [beforeMatch, if_pos hms]
      have hmu : m ++ u = a :: r := by
        rw [hmm, hl, ← hu]; simp
      refine ⟨u, ?_, ?_, ?_⟩
      · rw [hb, List.nil_append, hmu]
      · rw [hmu]; exact h
      · intro k hk
        rw [hb] at hk
        simp at hk
    · simp only [firstMatch, if_neg hms] at h
      obtain ⟨rest, hr, hmh, hnone⟩ := ih h
      have hb : beforeMatch (a :: r) = a :: beforeMatch r := by
        simp only [beforeMatch, if_neg hms]
      refine ⟨rest, ?_, hmh, ?_⟩
      · rw [hb]; simp [← hr]
      · intro k hk
        cases k with
        | zero =>
          simp only [List.drop_zero]
          exact Option.not_isSome_iff_eq_none.mp hms
        | succ j =>
          rw [hb] at hk
          simp only [List.length_cons, Nat.succ_lt_succ_iff] at hk
          simpa using hnone j hk

/-! ### Lemmas about the Go-map model -/

theorem lookup_cons_self {v₁ : α} {m : List (String × α)} (k : String) :
    List.lookup k ((k, v₁) :: m) = some v₁ := by
  simp [List.lookup_cons]

theorem lookup_cons_ne {k k₁ : String} {v₁ : α} {m : List (String × α)}
    (h : ¬k = k₁) : List.lookup k ((k₁, v₁) :: m) = List.lookup k m := by
  simp [List.lookup_cons, beq_eq_false_iff_ne.mpr h]

theorem lookup_map_replace (m : List (String × α)) (s k : String) (v : α) :
    (m.map (fun e => if e.1 = s then (s, v) else e)).lookup k =
      if k = s then (if m.any (fun e => e.1 = s) then some v else none)
      else m.lookup k := by
  induction m with
  | nil => by_cases hk : k = s <;> simp [hk]
  | cons e m ih =>
    obtain ⟨k₁, v₁⟩ := e
    by_cases h1 : k₁ = s
    · subst h1
      by_cases hk : k = k₁
      · subst hk
        simp [lookup_cons_self]
      · rw [List.map_cons, if_pos rfl, lookup_cons_ne hk, ih]
        rw [if_neg hk, if_neg hk, lookup_cons_ne hk]
    · by_cases hk : k = k₁
      · subst hk
        have hks : ¬k = s := h1
        simp only [List.map_cons, if_neg h1, lookup_cons_self, if_neg hks]
      · rw [List.map_cons, if_neg h1, lookup_cons_ne hk, ih]
        by_cases hks : k = s
        · subst hks
          simp only [List.any_cons, if_true, eq_self_iff_true]
          have harg : (decide (k₁ = k) || m.any fun e => decide (e.1 = k)) =
              (m.any fun e => decide (e.1 = k)) := by
            rw [decide_eq_false h1, Bool.false_or]
          simp only [harg]
        · simp [hks, lookup_cons_ne hk]

theorem lookup_append_match (l₁ l₂ : List (String × α)) (k : String) :
    (l₁ ++ l₂).lookup k =
      match l₁.lookup k with
      | some v => some v
      | none => l₂.lookup k := by
  induction l₁ with
  | nil => simp
  | cons e l₁ ih =>
    obtain ⟨k₁, v₁⟩ := e
    by_cases hk : k = k₁
    · subst hk; simp [lookup_cons_self]
    · simp only [List.cons_append, lookup_cons_ne hk, ih]

theorem lookup_eq_none_of_not_any (m : List (String × α)) (s : String)
    (h : m.any (fun e => e.1 = s) = false) : m.lookup s = none := by
  induction m with
  | nil => simp
  | cons e m ih =>
    obtain ⟨k₁, v₁⟩ := e
    simp only [List.any_cons, Bool.or_eq_false_iff, decide_eq_false_iff_not] at h
    rw [lookup_cons_ne (fun hh : s = k₁ => h.1 hh.symm)]
    exact ih h.2

/-- Lookup after `m[k] = v` in the Go-map model. -/
theorem lookup_mapInsert (m : List (String × α)) (s k : String) (v : α) :
    (mapInsert m s v).lookup k = if k = s then some v else m.lookup k := by
  unfold mapInsert
  by_cases hany : m.any (fun e => e.1 = s)
  · rw [if_pos hany, lookup_map_replace]
    by_cases hk : k = s <;> simp [hk, hany]
  · rw [if_neg hany, lookup_append_match]
    by_cases hk : k = s
    · subst hk
      rw [lookup_eq_none_of_not_any m k (Bool.eq_false_iff.mpr hany)]
      simp [lookup_cons_self]
    · rw [if_neg hk]
      cases hm : m.lookup k with
      | some w => rfl
      | none => rw [lookup_cons_ne hk]; rfl

theorem lookup_insertFold (subs : List String) (v : α)
    (acc : List (String × α)) (k : String) :
    (subs.foldl (fun a s => mapInsert a s v) acc).lookup k =
      if k ∈ subs then some v else acc.lookup k := by
  induction subs generalizing acc with
  | nil => simp
  | cons s rest ih =>
    simp only [List.foldl_cons]
    rw [ih]
    by_cases hr : k ∈ rest
    · simp [hr]
    · rw [if_neg hr, lookup_mapInsert]
      by_cases hs : k = s
      · simp [hs]
      · simp [hs, hr]

theorem mem_keys_mapInsert (m : List (String × α)) (s k : String) (v : α)
    (h : k ∈ m.map Prod.fst) : k ∈ (mapInsert m s v).map Prod.fst := by
  unfold mapInsert
  by_cases hany : m.any (fun e => e.1 = s)
  · rw [if_pos hany]
    obtain ⟨e, he, hk⟩ := List.mem_map.mp h
    by_cases hs : e.1 = s
    · rw [← hk, hs]
      obtain ⟨e', he', hs'⟩ : ∃ e' ∈ m, e'.1 = s := by
        simpa [List.any_eq_true] using hany
      exact List.mem_map.mpr ⟨(s, v), List.mem_map.mpr ⟨e', he', by simp [hs']⟩, rfl⟩
    · exact List.mem_map.mpr ⟨e, List.mem_map.mpr ⟨e, he, by simp [hs]⟩, hk⟩
  · rw [if_neg hany]
    simp only [List.map_append, List.mem_append]
    exact Or.inl h

theorem lookup_of_nodup_mem (m : List (String × α)) (k : String) (v : α)
    (hnd : (m.map Prod.fst).Nodup) (hmem : (k, v) ∈ m) : m.lookup k = some v := by
  induction m with
  | nil => simp at hmem
  | cons e m ih =>
    obtain ⟨k₁, v₁⟩ := e
    simp only [List.map_cons, List.nodup_cons] at hnd
    rcases List.mem_cons.mp hmem with he | hm
    · injection he with he1 he2
      subst he1; subst he2
      exact lookup_cons_self k
    · have hk : k ≠ k₁ := by
        rintro rfl
        exact hnd.1 (List.mem_map.mpr ⟨(k, v), hm, rfl⟩)
      rw [lookup_cons_ne hk]
      exact ih hnd.2 hm

/-! ### Lemmas for the `checkSonamesMatch` specification (C1) -/

theorem findSoname_of_soMatches {s : String} (h : soMatches s = true) :
    ∃ v, findSoname s = some v := by
  unfold soMatches at h
  obtain ⟨m, hm⟩ := Option.isSome_iff_exists.mp h
  exact ⟨List.asString m, by simp [findSoname, hm]⟩

theorem firstMatch_ne_nil {l m : List Char} (h : firstMatch l = some m) : m ≠ [] := by
  obtain ⟨rest, -, hmh, -⟩ := firstMatch_decomposition h
  obtain ⟨c, -, t, -, hshape, -, -⟩ := matchHere_eq_some hmh
  simp [hshape]

theorem findSoname_ne_empty {s v : String} (h : findSoname s = some v) : v ≠ "" := by
  unfold findSoname at h
  rw [Option.map_eq_some'] at h
  obtain ⟨m, hm, rfl⟩ := h
  have hne := firstMatch_ne_nil hm
  intro hv
  exact hne (by simpa [List.asString] using congrArg String.data hv)

theorem buildSonameMapAux_spec (gs : List String) (acc : List (String × String))
    (h : ∀ g ∈ gs, soMatches g = true) :
    ∃ M, buildSonameMapAux acc gs = some M ∧
      ∀ n, M.lookup n =
        match lastVersionFor gs n with
        | some v => some v
        | none => acc.lookup n := by
  induction gs generalizing acc with
  | nil => exact ⟨acc, rfl, fun n => by simp [lastVersionFor]⟩
  | cons g rest ih =>
    obtain ⟨v, hv⟩ := findSoname_of_soMatches (h g (by simp))
    obtain ⟨M, hM, hlook⟩ := ih (mapInsert acc (splitSoname g) v)
      (fun g' hg' => h g' (by simp [hg']))
    refine ⟨M, by simp only [buildSonameMapAux, hv]; exact hM, fun n => ?_⟩
    rw [hlook n, lookup_mapInsert]
    simp only [lastVersionFor]
    cases hlast : lastVersionFor rest n with
    | some w => rfl
    | none =>
      by_cases hn : splitSoname g = n
      · rw [if_pos hn, hv, if_pos hn.symm]
      · rw [if_neg hn, if_neg (fun hh => hn hh.symm)]

theorem lastVersionFor_ne_empty (gs : List String) (n ev : String)
    (h : ∀ g ∈ gs, soMatches g = true) (hl : lastVersionFor gs n = some ev) :
    ev ≠ "" := by
  induction gs with
  | nil => simp [lastVersionFor] at hl
  | cons g rest ih =>
    simp only [lastVersionFor] at hl
    cases hrest : lastVersionFor rest n with
    | some w =>
      rw [hrest] at hl
      exact ih (fun g' hg' => h g' (by simp [hg'])) (by rw [hrest, Option.some.inj hl])
    | none =>
      rw [hrest] at hl
      by_cases hn : splitSoname g = n
      · rw [if_pos hn] at hl
        exact findSoname_ne_empty hl
      · rw [if_neg hn] at hl
        simp at hl

theorem checkSonamesLoop_spec (existing : List String) (nw : List String)
    (M : List (String × String))
    (hnw : ∀ f ∈ nw, soMatches f = true)
    (hM : ∀ n, M.lookup n = lastVersionFor existing n)
    (hne : ∀ n ev, lastVersionFor existing n = some ev → ev ≠ "") :
    checkSonamesLoop M nw = some (specCheckSonames existing nw) := by
  induction nw with
  | nil => simp [checkSonamesLoop, specCheckSonames]
  | cons f rest ih =>
    obtain ⟨v, hv⟩ := findSoname_of_soMatches (hnw f (by simp))
    have ihr := ih (fun f' hf' => hnw f' (by simp [hf']))
    simp only [checkSonamesLoop, hv, hM]
    simp only [specCheckSonames, List.find?_cons]
    cases hlast : lastVersionFor existing (splitSoname f) with
    | none =>
      have hconf : hasConflict existing f = false := by
        simp [hasConflict, hlast]
      rw [hconf]
      simp only [Option.getD_none, if_pos rfl]
      simpa [specCheckSonames] using ihr
    | some ev =>
      have hevne : ev ≠ "" := hne _ _ hlast
      rw [if_neg (by simpa using hevne)]
      by_cases hev : ev = v
      · have hconf : hasConflict existing f = false := by
          simp [hasConflict, hlast, hv, hev]
        rw [if_neg (by simp [hev]), hconf]
        simpa [specCheckSonames] using ihr
      · have hconf : hasConflict existing f = true := by
          simp [hasConflict, hlast, hv, hev]
        rw [if_pos (by simp [hev]), hconf]
        simp [hlast, hv]

/-! ### Claim C1 -/

/-- C1, counterexample: with existing sonames `[libfoo.so.1, libfoo.so.2]`
and new sonames `[libfoo.so.2]` there is a new and an existing soname
sharing base-name `libfoo` with differing version-suffixes (`.so.2` vs
`.so.1`), yet `checkSonamesMatch` reports no error: the existing map is
built last-writer-wins, so only `libfoo.so.2` survives. -/
theorem C1_counterexample_last_writer_wins :
    checkSonamesMatch ["libfoo.so.1", "libfoo.so.2"] ["libfoo.so.2"] = some (.ok ())
    ∧ splitSoname "libfoo.so.2" = splitSoname "libfoo.so.1"
    ∧ findSoname "libfoo.so.2" ≠ findSoname "libfoo.so.1" := by
  refine ⟨by decide, by decide, by decide⟩

/-- C1 as amended: for lists of matching sonames, `checkSonamesMatch`
reports the incompatibility error — naming the base-name and both
version-suffixes — for the first new soname whose base-name is carried by
some existing soname and whose version-suffix differs from that of the
*last-listed* existing soname with that base-name (duplicate existing
base-names are collapsed last-writer-wins); otherwise it reports no
error. -/
theorem C1_amended_checkSonamesMatch_spec (existing nw : List String)
    (hex : ∀ g ∈ existing, soMatches g = true)
    (hnw : ∀ f ∈ nw, soMatches f = true) :
    checkSonamesMatch existing nw = some (specCheckSonames existing nw) := by
  unfold checkSonamesMatch
  obtain ⟨M, hM, hlook⟩ := buildSonameMapAux_spec existing [] hex
  rw [hM]
  refine checkSonamesLoop_spec existing nw M hnw (fun n => ?_)
    (fun n ev h => lastVersionFor_ne_empty existing n ev hex h)
  rw [hlook n]
  cases lastVersionFor existing n <;> simp

/-- C1, witness instantiating the spec's diff scenario: new `[libfoo.so.2]`
against existing `[libfoo.so.1]` reports the error naming `libfoo`,
`.so.1` and `.so.2`; new-only and removed base-names and equal suffixes
give no error. -/
theorem C1_amended_witness :
    checkSonamesMatch ["libfoo.so.1"] ["libfoo.so.2"] =
      some (specCheckSonames ["libfoo.so.1"] ["libfoo.so.2"])
    ∧ specCheckSonames ["libfoo.so.1"] ["libfoo.so.2"] =
        .error (mismatchMsg "libfoo" ".so.1" ".so.2")
    ∧ checkSonamesMatch ["libfoo.so.1"] ["libfoo.so.1"] = some (.ok ())
    ∧ checkSonamesMatch [] ["libnew.so.1"] = some (.ok ())
    ∧ checkSonamesMatch ["libgone.so.1"] [] = some (.ok ()) :=
  ⟨C1_amended_checkSonamesMatch_spec ["libfoo.so.1"] ["libfoo.so.2"]
      (by decide) (by decide),
   by decide, by decide, by decide, by decide⟩

/-! ### Lemmas for claim C7 -/

theorem parseManifestAux_ok_wellformed (lines : List String)
    (acc : List (String × NewApkPackage)) (m : List (String × NewApkPackage))
    (h : parseManifestAux acc lines = .ok m) :
    ∀ line ∈ lines, isBlankLine line = true ∨ lineMalformed line = false := by
  induction lines generalizing acc with
  | nil => intro line hl; simp at hl
  | cons l rest ih =>
    intro line hl
    simp only [parseManifestAux] at h
    by_cases hb : isBlankLine l = true
    · rw [if_pos hb] at h
      rcases List.mem_cons.mp hl with rfl | hmem
      · exact Or.inl hb
      · exact ih _ h line hmem
    · rw [if_neg hb] at h
      split at h
      · rename_i arch packageName verEpoch heq1
        split at h
        · rename_i version rEpoch heq2
          rcases List.mem_cons.mp hl with rfl | hmem
          · refine Or.inr ?_
            simp only [lineMalformed, heq1, heq2]
            simp
          · exact ih _ h line hmem
        · simp at h
      · simp at h

theorem parseManifestAux_error_pipe (pre post : List String) (line : String)
    (acc : List (String × NewApkPackage))
    (hpre : ∀ l ∈ pre, isBlankLine l = true ∨ lineMalformed l = false)
    (hb : isBlankLine line = false) (hlen : (goSplit line '|').length ≠ 3) :
    parseManifestAux acc (pre ++ line :: post) =
      .error ("expected 3 parts but found " ++ toString (goSplit line '|').length ++
        " when scanning " ++ line) := by
  induction pre generalizing acc with
  | nil =>
    simp only [List.nil_append, parseManifestAux, hb, Bool.false_eq_true, if_false]
    rcases hps : goSplit line '|' with _ | ⟨a, _ | ⟨b, _ | ⟨c, _ | ⟨d, ds⟩⟩⟩⟩
    · simp
    · simp
    · simp
    · exact absurd (by rw [hps]; rfl) hlen
    · simp
  | cons l pre ih =>
    have hl := hpre l (by simp)
    have hrest : ∀ l' ∈ pre, isBlankLine l' = true ∨ lineMalformed l' = false :=
      fun l' hl' => hpre l' (by simp [hl'])
    simp only [List.cons_append, parseManifestAux]
    by_cases hbl : isBlankLine l = true
    · rw [if_pos hbl]
      exact ih _ hrest
    · rw [if_neg hbl]
      rcases hl with hblank | hwf
      · exact absurd hblank hbl
      · simp only [lineMalformed] at hwf
        rcases hs1 : goSplit l '|' with _ | ⟨a, _ | ⟨b, _ | ⟨c, _ | ⟨d, ds⟩⟩⟩⟩ <;>
          rw [hs1] at hwf
        · simp at hwf
        · simp at hwf
        · simp at hwf
        · dsimp only
          have hlen2 : (goSplit c '-').length = 2 := by simpa using hwf
          obtain ⟨v, r, hvr⟩ := List.length_eq_two.mp hlen2
          rw [hvr]
          exact ih _ hrest
        · simp at hwf

theorem parseManifestAux_error_version (pre post : List String) (line : String)
    (a b c : String) (acc : List (String × NewApkPackage))
    (hpre : ∀ l ∈ pre, isBlankLine l = true ∨ lineMalformed l = false)
    (hb : isBlankLine line = false) (h3 : goSplit line '|' = [a, b, c])
    (hlen : (goSplit c '-').length ≠ 2) :
    parseManifestAux acc (pre ++ line :: post) =
      .error ("expected 2 version parts but found " ++
        toString (goSplit c '-').length) := by
  induction pre generalizing acc with
  | nil =>
    simp only [List.nil_append, parseManifestAux, hb, Bool.false_eq_true, if_false, h3]
    rcases hps : goSplit c '-' with _ | ⟨v, _ | ⟨r, _ | ⟨w, ws⟩⟩⟩
    · simp
    · simp
    · exact absurd (by rw [hps]; rfl) hlen
    · simp
  | cons l pre ih =>
    have hl := hpre l (by simp)
    have hrest : ∀ l' ∈ pre, isBlankLine l' = true ∨ lineMalformed l' = false :=
      fun l' hl' => hpre l' (by simp [hl'])
    simp only [List.cons_append, parseManifestAux]
    by_cases hbl : isBlankLine l = true
    · rw [if_pos hbl]
      exact ih _ hrest
    · rw [if_neg hbl]
      rcases hl with hblank | hwf
      · exact absurd hblank hbl
      · simp only [lineMalformed] at hwf
        rcases hs1 : goSplit l '|' with _ | ⟨a', _ | ⟨b', _ | ⟨c', _ | ⟨d', ds'⟩⟩⟩⟩ <;>
          rw [hs1] at hwf
        · simp at hwf
        · simp at hwf
        · simp at hwf
        · dsimp only
          have hlen2 : (goSplit c' '-').length = 2 := by simpa using hwf
          obtain ⟨v, r, hvr⟩ := List.length_eq_two.mp hlen2
          rw [hvr]
          exact ih _ hrest
        · simp at hwf

/-! ### Lemmas about the diff engine's effect trace -/

theorem walkUnder_append_join (dir : String) (fs : List String) (n : String) :
    walkUnder dir (fs ++ [joinPath dir n]) = walkUnder dir fs ++ [joinPath dir n] := by
  unfold walkUnder
  rw [List.filter_append]
  have hdata : (joinPath dir n).data = (dir.data ++ ['/']) ++ n.data := by
    show ((dir ++ "/") ++ n).data = _
    rw [String.data_append, String.data_append]
  have hpref : dir.data ++ ['/'] <+: (joinPath dir n).data :=
    hdata ▸ List.prefix_append _ _
  simp [hpref]

/-- The complete effect trace of `diff` on the path that reaches the
comparison: open and extract the new apk into the temp directory, scan it,
download the published archive as a single file into the *same* directory,
scan again (now seeing the same tree plus that one file), and compare. -/
theorem diff_download_trace (o : SoNameOptions) (name : String) (apk : NewApkPackage)
    (existing : List (String × RepoPackage)) (env : DiffEnv) (p : RepoPackage)
    (h1 : env.openNew = .ok ()) (h2 : env.untar = .ok ())
    (h3 : diffNewSonames env ≠ [])
    (h4 : existing.lookup name = some p) (h5 : env.download = .ok ()) :
    (diff o name apk existing env).effects =
      [.openNew (newApkFilename o name apk),
       .untar osTempDir,
       .scanSonames osTempDir (walkUnder osTempDir (diffFs1 env)),
       .download (replaceAll o.ApkIndexURL "APKINDEX" (p.Name ++ "-" ++ p.Version ++ ".apk"))
         (joinPath osTempDir (p.Name ++ "-" ++ p.Version ++ ".apk")),
       .scanSonames osTempDir
         (walkUnder osTempDir (diffFs1 env) ++
           [joinPath osTempDir (p.Name ++ "-" ++ p.Version ++ ".apk")]),
       .compareSonames
         (getSonameFiles (walkUnder osTempDir (diffFs1 env) ++
           [joinPath osTempDir (p.Name ++ "-" ++ p.Version ++ ".apk")]))
         (diffNewSonames env)] := by
  unfold diff
  simp only [h1, h2, h4, h5, if_neg h3, downloadCurrentAPK, walkUnder_append_join]
  cases hcm : checkSonamesMatch
      (getSonameFiles (walkUnder osTempDir (diffFs1 env) ++
        [joinPath osTempDir (p.Name ++ "-" ++ p.Version ++ ".apk")]))
      (diffNewSonames env) with
  | none => rfl
  | some r => cases r <;> rfl

/-! ### Claim C8 -/

/-- C8, counterexample: `brandnew` is absent from the existing index, yet
`diff` returns an error, because the newly built archive is opened (and
here fails to open) *before* the index is consulted. -/
theorem C8_counterexample_new_apk_read_failure :
    (([] : List (String × RepoPackage)).lookup "brandnew") = none
    ∧ (diff ⟨"packages.log", "/work", "/packages",
          "https://apk.example.org/os/APKINDEX.tar.gz"⟩
        "brandnew" ⟨"x86_64", "0", "1.0"⟩ []
        ⟨.error "no such file or directory", .ok (), .ok (), [], []⟩).result =
      .error "failed to read /packages/x86_64/brandnew-1.0-r0.apk: no such file or directory" :=
  ⟨rfl, rfl⟩

/-- C8 as amended: for a package absent from the existing index, once the
new archive has been read and extracted successfully, `diff` returns nil —
logging the skip when the new archive contains at least one soname file
(with no sonames it returns nil without the log, before consulting the
index). -/
theorem C8_amended_absent_package_returns_nil (o : SoNameOptions) (name : String)
    (apk : NewApkPackage) (existing : List (String × RepoPackage)) (env : DiffEnv)
    (h1 : env.openNew = .ok ()) (h2 : env.untar = .ok ())
    (h3 : existing.lookup name = none) :
    (diff o name apk existing env).result = .ok ()
    ∧ (diffNewSonames env ≠ [] →
        Effect.logMsg ("no existing package found for " ++ name ++
          ", skipping so name check") ∈ (diff o name apk existing env).effects) := by
  unfold diff
  simp only [h1, h2, h3]
  by_cases hN : diffNewSonames env = []
  · simp [hN]
  · simp [hN]

/-- C8, witness: concrete run with the new apk extracting one soname file
and an empty index: nil result and the skip is logged. -/
theorem C8_amended_absent_package_returns_nil_witness :
    (diff ⟨"packages.log", "/work", "/packages",
        "https://apk.example.org/os/APKINDEX.tar.gz"⟩
      "brandnew" ⟨"x86_64", "0", "1.0"⟩ []
      ⟨.ok (), .ok (), .ok (), ["usr/lib/libz.so.1"], []⟩).result = .ok ()
    ∧ Effect.logMsg ("no existing package found for " ++ "brandnew" ++
        ", skipping so name check") ∈
      (diff ⟨"packages.log", "/work", "/packages",
          "https://apk.example.org/os/APKINDEX.tar.gz"⟩
        "brandnew" ⟨"x86_64", "0", "1.0"⟩ []
        ⟨.ok (), .ok (), .ok (), ["usr/lib/libz.so.1"], []⟩).effects := by
  have h := C8_amended_absent_package_returns_nil
    ⟨"packages.log", "/work", "/packages", "https://apk.example.org/os/APKINDEX.tar.gz"⟩
    "brandnew" ⟨"x86_64", "0", "1.0"⟩ []
    ⟨.ok (), .ok (), .ok (), ["usr/lib/libz.so.1"], []⟩ rfl rfl rfl
  exact ⟨h.1, h.2 (by decide)⟩

/-! ### Claim C9 -/

/-- C9 (code bug), evaluation at the spec's end-to-end scenario: the
published `hello-world-0.0.1.apk` is downloaded from the substituted URL
and written into `/tmp` as a single file, but never extracted — the only
`untar` in the whole trace is the *new* apk's, before the download.
Consequently the "existing" soname scan re-walks the shared `/tmp` and
returns the new package's own `libfoo.so.2`, the comparison is new-vs-new,
and `diff` passes even though the published archive shipped `libfoo.so.1`. -/
theorem C9_download_not_extracted_eval :
    (diff ⟨"packages.log", "/work", "/packages",
        "https://apk.example.org/os/APKINDEX.tar.gz"⟩
      "hello-world" ⟨"x86_64", "0", "0.0.2"⟩
      [("hello-world", ⟨"hello-world", "0.0.1"⟩)]
      ⟨.ok (), .ok (), .ok (), ["usr/lib/libfoo.so.2"], []⟩).effects =
      [.openNew "/packages/x86_64/hello-world-0.0.2-r0.apk",
       .untar "/tmp",
       .scanSonames "/tmp" ["/tmp", "/tmp/usr/lib/libfoo.so.2"],
       .download "https://apk.example.org/os/hello-world-0.0.1.apk.tar.gz"
         "/tmp/hello-world-0.0.1.apk",
       .scanSonames "/tmp" ["/tmp", "/tmp/usr/lib/libfoo.so.2", "/tmp/hello-world-0.0.1.apk"],
       .compareSonames ["/tmp/usr/lib/libfoo.so.2"] ["/tmp/usr/lib/libfoo.so.2"]]
    ∧ (diff ⟨"packages.log", "/work", "/packages",
          "https://apk.example.org/os/APKINDEX.tar.gz"⟩
        "hello-world" ⟨"x86_64", "0", "0.0.2"⟩
        [("hello-world", ⟨"hello-world", "0.0.1"⟩)]
        ⟨.ok (), .ok (), .ok (), ["usr/lib/libfoo.so.2"], []⟩).result = .ok ()
    ∧ ((diff ⟨"packages.log", "/work", "/packages",
          "https://apk.example.org/os/APKINDEX.tar.gz"⟩
        "hello-world" ⟨"x86_64", "0", "0.0.2"⟩
        [("hello-world", ⟨"hello-world", "0.0.1"⟩)]
        ⟨.ok (), .ok (), .ok (), ["usr/lib/libfoo.so.2"], []⟩).effects.filter
          (fun e => match e with | .untar _ => true | _ => false)) = [.untar "/tmp"] := by
  refine ⟨by decide, by decide, by decide⟩

/-! ### Claim C10 -/

/-- C10: in every `diff` call that reaches the download, the new-package
extraction, the existing-package download and both soname scans all target
the one process-wide temp directory: the downloaded archive is written
there as a single unextracted file, and the second scan walks exactly the
first scan's tree plus that file. -/
theorem C10_shared_tempdir_single_file (o : SoNameOptions) (name : String)
    (apk : NewApkPackage) (existing : List (String × RepoPackage)) (env : DiffEnv)
    (p : RepoPackage)
    (h1 : env.openNew = .ok ()) (h2 : env.untar = .ok ())
    (h3 : diffNewSonames env ≠ [])
    (h4 : existing.lookup name = some p) (h5 : env.download = .ok ()) :
    ∃ W, (diff o name apk existing env).effects =
      [.openNew (newApkFilename o name apk),
       .untar osTempDir,
       .scanSonames osTempDir W,
       .download (replaceAll o.ApkIndexURL "APKINDEX" (p.Name ++ "-" ++ p.Version ++ ".apk"))
         (joinPath osTempDir (p.Name ++ "-" ++ p.Version ++ ".apk")),
       .scanSonames osTempDir (W ++ [joinPath osTempDir (p.Name ++ "-" ++ p.Version ++ ".apk")]),
       .compareSonames
         (getSonameFiles (W ++ [joinPath osTempDir (p.Name ++ "-" ++ p.Version ++ ".apk")]))
         (getSonameFiles W)] :=
  ⟨walkUnder osTempDir (diffFs1 env),
    diff_download_trace o name apk existing env p h1 h2 h3 h4 h5⟩

/-- C10, witness: the concrete download-path run, with the trace spelled
out. -/
theorem C10_shared_tempdir_single_file_witness :
    ∃ W, (diff ⟨"packages.log", "/work", "/packages",
        "https://apk.example.org/os/APKINDEX.tar.gz"⟩
      "libzap" ⟨"x86_64", "0", "1.1"⟩ [("libzap", ⟨"libzap", "1.0"⟩)]
      ⟨.ok (), .ok (), .ok (), ["usr/lib/libzap.so.2"], []⟩).effects =
      [.openNew (newApkFilename ⟨"packages.log", "/work", "/packages",
          "https://apk.example.org/os/APKINDEX.tar.gz"⟩ "libzap" ⟨"x86_64", "0", "1.1"⟩),
       .untar osTempDir,
       .scanSonames osTempDir W,
       .download (replaceAll "https://apk.example.org/os/APKINDEX.tar.gz" "APKINDEX"
           ("libzap" ++ "-" ++ "1.0" ++ ".apk"))
         (joinPath osTempDir ("libzap" ++ "-" ++ "1.0" ++ ".apk")),
       .scanSonames osTempDir (W ++ [joinPath osTempDir ("libzap" ++ "-" ++ "1.0" ++ ".apk")]),
       .compareSonames
         (getSonameFiles (W ++ [joinPath osTempDir ("libzap" ++ "-" ++ "1.0" ++ ".apk")]))
         (getSonameFiles W)] :=
  C10_shared_tempdir_single_file
    ⟨"packages.log", "/work", "/packages", "https://apk.example.org/os/APKINDEX.tar.gz"⟩
    "libzap" ⟨"x86_64", "0", "1.1"⟩ [("libzap", ⟨"libzap", "1.0"⟩)]
    ⟨.ok (), .ok (), .ok (), ["usr/lib/libzap.so.2"], []⟩ ⟨"libzap", "1.0"⟩
    rfl rfl (by decide) rfl rfl

/-! ### Claim C2 -/

/-- C2 (code bug), evaluation: three packages are diffed; `pkga` and
`pkgc` fail while `pkgb` succeeds, and the aggregate error contains
exactly the two findings on their own lines, in processing order — but
`pkga`'s finding text, which contains a `%s`, is not preserved verbatim:
`CheckSoName` re-passes each finding through `fmt.Errorf` as a format
string, turning `%s` into `%!s(MISSING)`. -/
theorem C2_errorf_mangles_findings :
    (diff ⟨"packages.log", "/work", "/packages",
        "https://apk.example.org/os/APKINDEX.tar.gz"⟩
      "pkga" ⟨"x86_64", "1", "1.0"⟩ []
      ⟨.error "boom %s", .ok (), .ok (), [], []⟩).result =
      .error "failed to read /packages/x86_64/pkga-1.0-r1.apk: boom %s"
    ∧ CheckSoName ⟨"packages.log", "/work", "/packages",
        "https://apk.example.org/os/APKINDEX.tar.gz"⟩
      ⟨.ok [], .ok ["x86_64|pkga|1.0-r1", "x86_64|pkgb|1.0-r1", "x86_64|pkgc|1.0-r1"],
       fun _ => none,
       fun n => if n = "pkga" then ⟨.error "boom %s", .ok (), .ok (), [], []⟩
         else if n = "pkgc" then ⟨.error "crash", .ok (), .ok (), [], []⟩
         else ⟨.ok (), .ok (), .ok (), [], []⟩⟩ =
      .error ("failed to read /packages/x86_64/pkga-1.0-r1.apk: boom %!s(MISSING)" ++
        "\n" ++ "failed to read /packages/x86_64/pkgc-1.0-r1.apk: crash")
    ∧ ("failed to read /packages/x86_64/pkga-1.0-r1.apk: boom %!s(MISSING)" : String) ≠
        "failed to read /packages/x86_64/pkga-1.0-r1.apk: boom %s" := by
  refine ⟨rfl, rfl, by decide⟩

/-! ### Lemmas for claim C6 -/

theorem addSubpackages_eq_foldl (dir : String)
    (recipes : String → Option (List String)) (m : List (String × NewApkPackage)) :
    addSubpackages dir recipes m = m.foldl (fun acc pv =>
      match recipes pv.1 with
      | none => acc
      | some subs => subs.foldl (fun a s => mapInsert a s pv.2) acc) m := by
  unfold addSubpackages addSubpackagesT
  suffices h : ∀ (L : List (String × NewApkPackage)) (logs : List String)
      (acc : List (String × NewApkPackage)),
      (L.foldl (fun acc pv =>
        match recipes pv.1 with
        | none =>
          (acc.1 ++ ["failed to read melange config " ++ joinPath dir (pv.1 ++ ".yaml")], acc.2)
        | some subs => (acc.1, subs.foldl (fun a s => mapInsert a s pv.2) acc.2)) (logs, acc)).2 =
      L.foldl (fun acc pv =>
        match recipes pv.1 with
        | none => acc
        | some subs => subs.foldl (fun a s => mapInsert a s pv.2) acc) acc by
    exact h m [] m
  intro L
  induction L with
  | nil => intro logs acc; rfl
  | cons pv L ih =>
    intro logs acc
    simp only [List.foldl_cons]
    cases recipes pv.1 with
    | none => exact ih _ _
    | some subs => exact ih _ _

theorem insertFold_keys_grow (subs : List String) (v : NewApkPackage)
    (acc : List (String × NewApkPackage)) (k : String)
    (h : k ∈ acc.map Prod.fst) :
    k ∈ (subs.foldl (fun a s => mapInsert a s v) acc).map Prod.fst := by
  induction subs generalizing acc with
  | nil => exact h
  | cons s rest ih => exact ih _ (mem_keys_mapInsert acc s k v h)

theorem foldl_step_lookup_not_declared (recipes : String → Option (List String))
    (L : List (String × NewApkPackage)) (acc : List (String × NewApkPackage))
    (k : String)
    (h : ∀ pv ∈ L, ∀ subs, recipes pv.1 = some subs → k ∉ subs) :
    (L.foldl (fun acc pv =>
      match recipes pv.1 with
      | none => acc
      | some subs => subs.foldl (fun a s => mapInsert a s pv.2) acc) acc).lookup k =
    acc.lookup k := by
  induction L generalizing acc with
  | nil => rfl
  | cons pv L ih =>
    simp only [List.foldl_cons]
    cases hr : recipes pv.1 with
    | none =>
      rw [ih _ (fun pv' hpv' => h pv' (by simp [hpv']))]
    | some subs =>
      rw [ih _ (fun pv' hpv' => h pv' (by simp [hpv'])), lookup_insertFold,
        if_neg (h pv (by simp) subs hr)]

theorem foldl_step_keys_grow (recipes : String → Option (List String))
    (L : List (String × NewApkPackage)) (acc : List (String × NewApkPackage))
    (k : String) (h : k ∈ acc.map Prod.fst) :
    k ∈ (L.foldl (fun acc pv =>
      match recipes pv.1 with
      | none => acc
      | some subs => subs.foldl (fun a s => mapInsert a s pv.2) acc) acc).map Prod.fst := by
  induction L generalizing acc with
  | nil => exact h
  | cons pv L ih =>
    simp only [List.foldl_cons]
    cases recipes pv.1 with
    | none => exact ih _ h
    | some subs => exact ih _ (insertFold_keys_grow subs pv.2 acc k h)

theorem addSubpackagesT_log_mono (dir : String)
    (recipes : String → Option (List String))
    (L : List (String × NewApkPackage)) (logs : List String)
    (acc : List (String × NewApkPackage)) (msg : String) (h : msg ∈ logs) :
    msg ∈ (L.foldl (fun acc pv =>
      match recipes pv.1 with
      | none =>
        (acc.1 ++ ["failed to read melange config " ++ joinPath dir (pv.1 ++ ".yaml")], acc.2)
      | some subs => (acc.1, subs.foldl (fun a s => mapInsert a s pv.2) acc.2))
      (logs, acc)).1 := by
  induction L generalizing logs acc with
  | nil => exact h
  | cons pv L ih =>
    simp only [List.foldl_cons]
    cases hr : recipes pv.1 with
    | none => exact ih _ _ (List.mem_append.mpr (Or.inl h))
    | some subs => exact ih _ _ h

/-- A package whose melange config fails to read contributes the
`failed to read melange config` line to the log component of
`addSubpackagesT`. -/
theorem addSubpackagesT_logs_failure (dir : String)
    (recipes : String → Option (List String))
    (m : List (String × NewApkPackage)) (Q : String) (w : NewApkPackage)
    (hmem : (Q, w) ∈ m) (hfail : recipes Q = none) :
    ("failed to read melange config " ++ joinPath dir (Q ++ ".yaml")) ∈
      (addSubpackagesT dir recipes m).1 := by
  unfold addSubpackagesT
  suffices h : ∀ (L : List (String × NewApkPackage)) (logs : List String)
      (acc : List (String × NewApkPackage)), (Q, w) ∈ L →
      ("failed to read melange config " ++ joinPath dir (Q ++ ".yaml")) ∈
        (L.foldl (fun acc pv =>
          match recipes pv.1 with
          | none =>
            (acc.1 ++ ["failed to read melange config " ++ joinPath dir (pv.1 ++ ".yaml")],
              acc.2)
          | some subs => (acc.1, subs.foldl (fun a s => mapInsert a s pv.2) acc.2))
          (logs, acc)).1 by
    exact h m [] m hmem
  intro L
  induction L with
  | nil => intro logs acc h; simp at h
  | cons pv L ih =>
    intro logs acc h
    simp only [List.foldl_cons]
    rcases List.mem_cons.mp h with heq | hmL
    · obtain rfl : pv = (Q, w) := heq.symm
      simp only [hfail]
      exact addSubpackagesT_log_mono dir recipes L _ _ _ (by simp)
    · cases hr : recipes pv.1 with
      | none => exact ih _ _ hmL
      | some subs => exact ih _ _ hmL

/-! ### Claim C6 -/

/-- C6, counterexample: package `P` declares subpackages `[Q, R]` while `Q`
is itself an input package with different metadata `b`; the expansion
overwrites `Q`'s entry with `P`'s metadata, so the input entry `(Q, b)` is
not preserved in the output. -/
theorem C6_counterexample_subpackage_overwrite :
    addSubpackages "/work" (fun n => if n = "P" then some ["Q", "R"] else none)
      [("P", (⟨"x86_64", "0", "1.0"⟩ : NewApkPackage)), ("Q", ⟨"aarch64", "1", "2.0"⟩)] =
      [("P", ⟨"x86_64", "0", "1.0"⟩), ("Q", ⟨"x86_64", "0", "1.0"⟩),
        ("R", ⟨"x86_64", "0", "1.0"⟩)]
    ∧ ("Q", (⟨"aarch64", "1", "2.0"⟩ : NewApkPackage)) ∈
        [("P", (⟨"x86_64", "0", "1.0"⟩ : NewApkPackage)), ("Q", ⟨"aarch64", "1", "2.0"⟩)]
    ∧ (⟨"x86_64", "0", "1.0"⟩ : NewApkPackage) ≠ ⟨"aarch64", "1", "2.0"⟩ := by
  refine ⟨by decide, by decide, by decide⟩

/-- C6 as amended: for a package `P` of the input map (with distinct input
keys) whose recipe declares subpackages `subs`, provided no *other* input
package's recipe declares any of those names or `P` itself, the expanded
map carries `P` and every declared subpackage with `P`'s metadata; every
input key survives into the output; an input entry whose key no recipe
declares keeps its own value; and a package whose recipe fails to read is
logged (`failed to read melange config …`) and skipped without failing
the expansion — no hypothesis requires any other recipe to parse. -/
theorem C6_amended_subpackage_expansion (dir : String)
    (recipes : String → Option (List String)) (m : List (String × NewApkPackage))
    (P : String) (vP : NewApkPackage) (subs : List String)
    (hmem : (P, vP) ∈ m)
    (hnodup : (m.map Prod.fst).Nodup)
    (hrec : recipes P = some subs)
    (hothers : ∀ Q w, (Q, w) ∈ m → Q ≠ P → ∀ subs2, recipes Q = some subs2 →
      ∀ s, s ∈ subs ∨ s = P → s ∉ subs2) :
    (addSubpackages dir recipes m).lookup P = some vP
    ∧ (∀ s ∈ subs, (addSubpackages dir recipes m).lookup s = some vP)
    ∧ (∀ k, k ∈ m.map Prod.fst → k ∈ (addSubpackages dir recipes m).map Prod.fst)
    ∧ (∀ k w, (k, w) ∈ m →
        (∀ Q w2, (Q, w2) ∈ m → ∀ subs2, recipes Q = some subs2 → k ∉ subs2) →
        (addSubpackages dir recipes m).lookup k = some w)
    ∧ (∀ Q w, (Q, w) ∈ m → recipes Q = none →
        ("failed to read melange config " ++ joinPath dir (Q ++ ".yaml")) ∈
          (addSubpackagesT dir recipes m).1) := by
  have hlog : ∀ Q w, (Q, w) ∈ m → recipes Q = none →
      ("failed to read melange config " ++ joinPath dir (Q ++ ".yaml")) ∈
        (addSubpackagesT dir recipes m).1 :=
    fun Q w hQw hf => addSubpackagesT_logs_failure dir recipes m Q w hQw hf
  rw [addSubpackages_eq_foldl]
  have huntouched : ∀ k w, (k, w) ∈ m →
      (∀ Q w2, (Q, w2) ∈ m → ∀ subs2, recipes Q = some subs2 → k ∉ subs2) →
      (m.foldl (fun acc pv =>
        match recipes pv.1 with
        | none => acc
        | some subs => subs.foldl (fun a s => mapInsert a s pv.2) acc) m).lookup k =
      some w := by
    intro k w hkw hnd
    rw [foldl_step_lookup_not_declared recipes m m k
      (fun pv hpv subs2 hr => hnd pv.1 pv.2 hpv subs2 hr)]
    exact lookup_of_nodup_mem m k w hnodup hkw
  have hkeys : ∀ k, k ∈ m.map Prod.fst →
      k ∈ (m.foldl (fun acc pv =>
        match recipes pv.1 with
        | none => acc
        | some subs => subs.foldl (fun a s => mapInsert a s pv.2) acc) m).map Prod.fst :=
    fun k hk => foldl_step_keys_grow recipes m m k hk
  obtain ⟨m₁, m₂, hm⟩ := List.append_of_mem hmem
  have hnodup2 := hnodup
  rw [hm, List.map_append, List.map_cons] at hnodup2
  rw [List.nodup_append] at hnodup2
  obtain ⟨hnd1, hnd2, hdisj⟩ := hnodup2
  have hP1 : P ∉ m₁.map Prod.fst := fun hp => hdisj hp (by simp)
  have hP2 : P ∉ m₂.map Prod.fst := (List.nodup_cons.mp hnd2).1
  have hQ1 : ∀ Q w, (Q, w) ∈ m₁ → Q ≠ P := by
    rintro Q w hQ rfl
    exact hP1 (List.mem_map.mpr ⟨(Q, w), hQ, rfl⟩)
  have hQ2 : ∀ Q w, (Q, w) ∈ m₂ → Q ≠ P := by
    rintro Q w hQ rfl
    exact hP2 (List.mem_map.mpr ⟨(Q, w), hQ, rfl⟩)
  have hmemm : ∀ Q w, ((Q, w) ∈ m₁ ∨ (Q, w) ∈ m₂) → (Q, w) ∈ m := by
    intro Q w hQ
    rw [hm]
    rcases hQ with h | h
    · exact List.mem_append.mpr (Or.inl h)
    · exact List.mem_append.mpr (Or.inr (by simp [h]))
  have hnd1' : ∀ pv ∈ m₁, ∀ subs2, recipes pv.1 = some subs2 →
      ∀ s, s ∈ subs ∨ s = P → s ∉ subs2 := by
    intro pv hpv subs2 hr s hs
    exact hothers pv.1 pv.2 (hmemm _ _ (Or.inl hpv)) (hQ1 pv.1 pv.2 hpv) subs2 hr s hs
  have hnd2' : ∀ pv ∈ m₂, ∀ subs2, recipes pv.1 = some subs2 →
      ∀ s, s ∈ subs ∨ s = P → s ∉ subs2 := by
    intro pv hpv subs2 hr s hs
    exact hothers pv.1 pv.2 (hmemm _ _ (Or.inr hpv)) (hQ2 pv.1 pv.2 hpv) subs2 hr s hs
  have hsplit0 : List.foldl (fun acc pv =>
      match recipes pv.1 with
      | none => acc
      | some subs => subs.foldl (fun a s => mapInsert a s pv.2) acc) m m =
      List.foldl (fun acc pv =>
        match recipes pv.1 with
        | none => acc
        | some subs => subs.foldl (fun a s => mapInsert a s pv.2) acc)
        (subs.foldl (fun a s => mapInsert a s vP)
          (List.foldl (fun acc pv =>
            match recipes pv.1 with
            | none => acc
            | some subs => subs.foldl (fun a s => mapInsert a s pv.2) acc) m m₁)) m₂ := by
    have h0 := congrArg (List.foldl (fun acc pv =>
      match recipes pv.1 with
      | none => acc
      | some subs => subs.foldl (fun a s => mapInsert a s pv.2) acc) m) hm
    rw [List.foldl_append, List.foldl_cons] at h0
    simpa only [hrec] using h0
  have hacc1 : ∀ k, (k ∈ subs ∨ k = P) →
      ((m₁.foldl (fun acc pv =>
        match recipes pv.1 with
        | none => acc
        | some subs => subs.foldl (fun a s => mapInsert a s pv.2) acc) m).lookup k) =
      m.lookup k := by
    intro k hk
    exact foldl_step_lookup_not_declared recipes m₁ m k
      (fun pv hpv subs2 hr => hnd1' pv hpv subs2 hr k hk)
  refine ⟨?_, ?_, ?_, huntouched, hlog⟩
  · rw [hsplit0]
    rw [foldl_step_lookup_not_declared recipes m₂ _ P
      (fun pv hpv subs2 hr => hnd2' pv hpv subs2 hr P (Or.inr rfl))]
    rw [lookup_insertFold]
    by_cases hPs : P ∈ subs
    · rw [if_pos hPs]
    · rw [if_neg hPs, hacc1 P (Or.inr rfl)]
      exact lookup_of_nodup_mem m P vP hnodup hmem
  · intro s hs
    rw [hsplit0]
    rw [foldl_step_lookup_not_declared recipes m₂ _ s
      (fun pv hpv subs2 hr => hnd2' pv hpv subs2 hr s (Or.inl hs))]
    rw [lookup_insertFold, if_pos hs]
  · exact hkeys

/-- C6, witness: package `P` with subpackages `[Q, R]` next to a package
`S` whose recipe fails to read: `P` keeps its metadata and `S`'s failure
is logged. -/
theorem C6_amended_subpackage_expansion_witness :
    (addSubpackages "/work" (fun n => if n = "P" then some ["Q", "R"] else none)
      [("P", (⟨"x86_64", "0", "1.0"⟩ : NewApkPackage)),
        ("S", ⟨"aarch64", "1", "2.0"⟩)]).lookup "P" =
      some ⟨"x86_64", "0", "1.0"⟩
    ∧ ("failed to read melange config " ++ joinPath "/work" ("S" ++ ".yaml")) ∈
        (addSubpackagesT "/work" (fun n => if n = "P" then some ["Q", "R"] else none)
          [("P", (⟨"x86_64", "0", "1.0"⟩ : NewApkPackage)),
            ("S", ⟨"aarch64", "1", "2.0"⟩)]).1 := by
  have h := C6_amended_subpackage_expansion "/work"
    (fun n => if n = "P" then some ["Q", "R"] else none)
    [("P", ⟨"x86_64", "0", "1.0"⟩), ("S", ⟨"aarch64", "1", "2.0"⟩)]
    "P" ⟨"x86_64", "0", "1.0"⟩ ["Q", "R"]
    (by decide) (by decide) (by decide)
    (by
      intro Q w hQw hQP subs2 hr s hs
      simp only [List.mem_cons, List.mem_singleton, Prod.mk.injEq] at hQw
      rcases hQw with ⟨hQ, -⟩ | ⟨hQ, -⟩ | hnil
      · exact absurd hQ hQP
      · rw [hQ] at hr
        simp at hr
      · simp at hnil)
  exact ⟨h.1, h.2.2.2.2 "S" ⟨"aarch64", "1", "2.0"⟩ (by decide) (by decide)⟩

/-! ### Claim C7 -/

/-- C7, counterexample: the empty line does not split into 3 pipe-delimited
fields, yet a manifest consisting of it parses successfully — blank lines
are skipped before the field check; and a line whose third field has the
wrong number of hyphen parts fails with an error that reports only the
part count, not the offending line. -/
theorem C7_counterexample_blank_line :
    (goSplit "" '|').length = 1
    ∧ parseManifest [""] = .ok []
    ∧ parseManifest ["a|b|c"] = .error "expected 2 version parts but found 1"
    ∧ ¬(("a|b|c").data <:+: ("expected 2 version parts but found 1").data) := by
  refine ⟨by decide, by decide, by decide, by decide⟩

/-- C7 as amended: a *non-blank* line that does not split into exactly 3
pipe fields fails the whole read with an error quoting the offending line;
a non-blank line whose third field does not split into exactly 2 hyphen
parts fails the read with an error reporting the number of parts found
(but not the line text); blank lines are skipped; and whenever the read
succeeds, every line was blank or well-formed — no malformed non-blank
line is silently dropped. -/
theorem C7_amended_malformed_line_fails :
    (∀ (lines : List String),
      (∃ line ∈ lines, isBlankLine line = false ∧ lineMalformed line = true) →
      ∃ e, parseManifest lines = .error e)
    ∧ (∀ (pre post : List String) (line : String),
        (∀ l ∈ pre, isBlankLine l = true ∨ lineMalformed l = false) →
        isBlankLine line = false → (goSplit line '|').length ≠ 3 →
        parseManifest (pre ++ line :: post) =
          .error ("expected 3 parts but found " ++
            toString (goSplit line '|').length ++ " when scanning " ++ line))
    ∧ (∀ (pre post : List String) (line a b c : String),
        (∀ l ∈ pre, isBlankLine l = true ∨ lineMalformed l = false) →
        isBlankLine line = false → goSplit line '|' = [a, b, c] →
        (goSplit c '-').length ≠ 2 →
        parseManifest (pre ++ line :: post) =
          .error ("expected 2 version parts but found " ++
            toString (goSplit c '-').length)) := by
  refine ⟨?_, ?_, ?_⟩
  · intro lines hex
    cases hp : parseManifest lines with
    | error e => exact ⟨e, rfl⟩
    | ok m =>
      obtain ⟨line, hmem, hnb, hmal⟩ := hex
      rcases parseManifestAux_ok_wellformed lines [] m hp line hmem with hbl | hwf
      · rw [hnb] at hbl; exact absurd hbl (by simp)
      · rw [hmal] at hwf; exact absurd hwf (by simp)
  · intro pre post line hpre hb hlen
    exact parseManifestAux_error_pipe pre post line [] hpre hb hlen
  · intro pre post line a b c hpre hb h3 hlen
    exact parseManifestAux_error_version pre post line a b c [] hpre hb h3 hlen

/-- C7, witness: a well-formed first line followed by `a|b` fails the read
quoting `a|b`. -/
theorem C7_amended_malformed_line_fails_witness :
    parseManifest (["x86_64|ok|1-r0"] ++ "a|b" :: []) =
      .error ("expected 3 parts but found " ++
        toString (goSplit "a|b" '|').length ++ " when scanning " ++ "a|b") :=
  C7_amended_malformed_line_fails.2.1 ["x86_64|ok|1-r0"] [] "a|b"
    (by decide) (by decide) (by decide)

/-! ### Claim C4 -/

/-- C4, counterexample: the filename `json2` contains no literal `.so`
substring, yet the scanner classifies it as a soname file — the regex
`.so.*\d` was written with an unescaped dot, so any character before `so`
matches. The claim's "only if" direction is false. -/
theorem C4_counterexample_json2 :
    soMatches "json2" = true ∧ literalSoPattern ("json2").data = false ∧
      getSonameFiles ["json2"] = ["json2"] := by
  refine ⟨by decide, by decide, ?_⟩
  simp [getSonameFiles, filepathBase]
  decide

/-- C4 as amended: a filename is classified as a soname exactly when it
contains *any* non-newline character immediately followed by `so`,
followed later (across non-newline characters) by at least one digit — the
literal dot is not required; `libfoo.so.1` and `libfoo.so.1.2.3` are
classified and `libfoo.so` (no digit after the `so`) is not. -/
theorem C4_amended_pattern_characterization :
    (∀ s : String, soMatches s = true ↔ SonamePattern s.data)
    ∧ soMatches "libfoo.so.1" = true ∧ soMatches "libfoo.so.1.2.3" = true
    ∧ soMatches "libfoo.so" = false :=
  ⟨fun s => firstMatch_isSome_iff s.data, by decide, by decide, by decide⟩

/-! ### Claim C5 -/

/-- C5: splitting a matched filename yields base-name = everything before
the first (leftmost) match of the pattern and version-suffix = the matched
substring itself; no match starts anywhere inside the base-name, so the
first match wins. -/
theorem C5_split_first_match (s : String) (m : List Char)
    (h : firstMatch s.data = some m) :
    ∃ rest, s.data = (splitSoname s).data ++ m ++ rest
      ∧ findSoname s = some (List.asString m)
      ∧ matchHere (m ++ rest) = some m
      ∧ ∀ k, k < (splitSoname s).data.length → matchHere (s.data.drop k) = none := by
  obtain ⟨rest, h1, h2, h3⟩ := firstMatch_decomposition h
  exact ⟨rest, h1, by simp [findSoname, h], h2, h3⟩

/-- C5, witness at `libfoo.so.1`: base `libfoo`, version-suffix `.so.1`. -/
theorem C5_split_first_match_witness :
    firstMatch ("libfoo.so.1").data = some ('.' :: 's' :: 'o' :: '.' :: '1' :: []) ∧
    (∃ rest, ("libfoo.so.1").data =
        (splitSoname "libfoo.so.1").data ++ ('.' :: 's' :: 'o' :: '.' :: '1' :: []) ++ rest
      ∧ findSoname "libfoo.so.1" = some (List.asString ('.' :: 's' :: 'o' :: '.' :: '1' :: []))
      ∧ matchHere (('.' :: 's' :: 'o' :: '.' :: '1' :: []) ++ rest) =
          some ('.' :: 's' :: 'o' :: '.' :: '1' :: [])
      ∧ ∀ k, k < (splitSoname "libfoo.so.1").data.length →
          matchHere (("libfoo.so.1").data.drop k) = none) :=
  ⟨by decide, C5_split_first_match "libfoo.so.1" _ (by decide)⟩

/-! ### Lemmas for the manifest reader -/

theorem splitChar_ne_nil (sep : Char) (l : List Char) : splitChar sep l ≠ [] := by
  cases l with
  | nil => simp [splitChar]
  | cons c r =>
    simp only [splitChar]
    cases splitChar sep r with
    | nil => simp
    | cons p ps => by_cases hc : c = sep <;> simp [hc]

theorem splitChar_no_sep {sep : Char} {a : List Char} (h : sep ∉ a) :
    splitChar sep a = [a] := by
  induction a with
  | nil => rfl
  | cons c r ih =>
    have hc : ¬c = sep := fun hh => h (by simp [hh])
    have hr : sep ∉ r := fun hh => h (by simp [hh])
    simp only [splitChar, ih hr]
    simp [hc]

theorem splitChar_append {sep : Char} {a : List Char} (b : List Char) (h : sep ∉ a) :
    splitChar sep (a ++ sep :: b) = a :: splitChar sep b := by
  induction a with
  | nil =>
    simp only [List.nil_append, splitChar]
    cases hs : splitChar sep b with
    | nil => exact absurd hs (splitChar_ne_nil sep b)
    | cons p ps => simp
  | cons c r ih =>
    have hc : ¬c = sep := fun hh => h (by simp [hh])
    have hr : sep ∉ r := fun hh => h (by simp [hh])
    simp only [List.cons_append, splitChar, List.append_eq]
    rw [ih hr]
    simp [hc]

theorem isBlankLine_false_of_mem {s : String} {c : Char} (hc : c ∈ s.data)
    (hns : goIsSpace c = false) : isBlankLine s = false := by
  unfold isBlankLine
  rw [Bool.eq_false_iff]
  intro hall
  have := List.all_eq_true.mp hall c hc
  rw [hns] at this
  exact Bool.false_ne_true this

theorem data_asString (l : List Char) : (List.asString l).data = l := rfl

theorem goTrimPrefix_r (l : List Char) :
    goTrimPrefix (List.asString ('r' :: l)) "r" = List.asString l := by
  unfold goTrimPrefix
  rw [if_pos (by simp [List.isPrefixOf, data_asString])]
  rfl

theorem goTrimSuffix_apk_strip (l : List Char) :
    goTrimSuffix (List.asString (l ++ ('.' :: 'a' :: 'p' :: 'k' :: []))) ".apk" =
      List.asString l := by
  unfold goTrimSuffix
  simp only [data_asString, show (".apk" : String).data = ('.' :: 'a' :: 'p' :: 'k' :: []) from rfl]
  rw [if_pos (List.isSuffixOf_iff_suffix.mpr ⟨l, rfl⟩)]
  congr 1
  rw [List.length_append]
  simp only [List.length_cons, List.length_nil]
  have harith : l.length + (0 + 1 + 1 + 1 + 1) - (0 + 1 + 1 + 1 + 1) = l.length := by omega
  rw [harith]
  exact List.take_left l _

theorem goTrimSuffix_apk_keep (l : List Char)
    (h : ¬('.' :: 'a' :: 'p' :: 'k' :: []) <:+ l) :
    goTrimSuffix (List.asString l) ".apk" = List.asString l := by
  unfold goTrimSuffix
  simp only [data_asString, show (".apk" : String).data = ('.' :: 'a' :: 'p' :: 'k' :: []) from rfl]
  rw [if_neg (fun hs => h (List.isSuffixOf_iff_suffix.mp hs))]

theorem parseManifest_single_core (arch name version epoch : String)
    (sufdata : List Char)
    (ha : '|' ∉ arch.data) (hn : '|' ∉ name.data)
    (hv1 : '|' ∉ version.data) (hv2 : '-' ∉ version.data)
    (he1 : '|' ∉ epoch.data) (he2 : '-' ∉ epoch.data)
    (hs1 : '|' ∉ sufdata) (hs2 : '-' ∉ sufdata)
    (htrim : goTrimSuffix (List.asString (epoch.data ++ sufdata)) ".apk" = epoch) :
    parseManifest [List.asString (arch.data ++ '|' ::
        (name.data ++ '|' :: (version.data ++ '-' :: 'r' :: (epoch.data ++ sufdata))))] =
      .ok [(name, ⟨arch, epoch, version⟩)] := by
  set L3 := version.data ++ '-' :: 'r' :: (epoch.data ++ sufdata) with hL3
  set line := List.asString (arch.data ++ '|' :: (name.data ++ '|' :: L3)) with hlinedef
  have hblank : isBlankLine line = false := by
    refine isBlankLine_false_of_mem (c := '|') ?_ (by decide)
    rw [hlinedef, data_asString]
    simp
  have hL3pipe : '|' ∉ L3 := by
    rw [hL3]
    intro hm
    rcases List.mem_append.mp hm with h | h
    · exact hv1 h
    · rcases List.mem_cons.mp h with h | h
      · exact absurd h (by decide)
      · rcases List.mem_cons.mp h with h | h
        · exact absurd h (by decide)
        · rcases List.mem_append.mp h with h | h
          · exact he1 h
          · exact hs1 h
  have hsplit : goSplit line '|' = [arch, name, List.asString L3] := by
    unfold goSplit
    rw [hlinedef, data_asString, splitChar_append _ ha, splitChar_append _ hn,
      splitChar_no_sep hL3pipe]
    rfl
  have hdashtail : '-' ∉ 'r' :: (epoch.data ++ sufdata) := by
    intro hm
    rcases List.mem_cons.mp hm with h | h
    · exact absurd h (by decide)
    · rcases List.mem_append.mp h with h | h
      · exact he2 h
      · exact hs2 h
  have hsplit2 : goSplit (List.asString L3) '-' =
      [version, List.asString ('r' :: (epoch.data ++ sufdata))] := by
    unfold goSplit
    rw [data_asString, hL3, splitChar_append _ hv2, splitChar_no_sep hdashtail]
    rfl
  have hepoch : goTrimSuffix (goTrimPrefix
      (List.asString ('r' :: (epoch.data ++ sufdata))) "r") ".apk" = epoch := by
    rw [goTrimPrefix_r, htrim]
  simp only [parseManifest, parseManifestAux, hblank, Bool.false_eq_true, if_false,
    hsplit, hsplit2, hepoch]
  simp [mapInsert]

theorem addSubpackages_lookup_single (dir : String)
    (recipes : String → Option (List String)) (name : String) (v : NewApkPackage) :
    (addSubpackages dir recipes [(name, v)]).lookup name = some v := by
  unfold addSubpackages addSubpackagesT
  simp only [List.foldl_cons, List.foldl_nil]
  cases hr : recipes name with
  | none => simp [lookup_cons_self]
  | some subs =>
    simp only [lookup_insertFold]
    by_cases h : name ∈ subs
    · simp [h]
    · simp [h, lookup_cons_self]

/-! ### Claim C3 -/

/-- C3: parsing the manifest line `ARCH|NAME|VERSION-rEPOCH` (with an
optional trailing `.apk`) yields an entry keyed by NAME whose architecture
is ARCH, version is VERSION and epoch is EPOCH, the leading `r` and
trailing `.apk` stripped — for any field values free of the delimiters
(`|` everywhere, `-` in the version fields; EPOCH must not itself end in
`.apk` when the suffix is absent). -/
theorem C3_manifest_line_roundtrip (o : SoNameOptions)
    (recipes : String → Option (List String))
    (arch name version epoch : String) (apk : Bool)
    (ha : '|' ∉ arch.data) (hn : '|' ∉ name.data)
    (hv1 : '|' ∉ version.data) (hv2 : '-' ∉ version.data)
    (he1 : '|' ∉ epoch.data) (he2 : '-' ∉ epoch.data)
    (he3 : apk = false → ¬('.' :: 'a' :: 'p' :: 'k' :: []) <:+ epoch.data) :
    ∃ m, getNewPackages o recipes
        (.ok [arch ++ "|" ++ name ++ "|" ++ version ++ "-r" ++ epoch ++
          (if apk then ".apk" else "")]) = .ok m
      ∧ m.lookup name = some ⟨arch, epoch, version⟩ := by
  have hline : (arch ++ "|" ++ name ++ "|" ++ version ++ "-r" ++ epoch ++
      (if apk then ".apk" else "")) = List.asString (arch.data ++ '|' ::
        (name.data ++ '|' :: (version.data ++ '-' :: 'r' ::
          (epoch.data ++ (if apk then ('.' :: 'a' :: 'p' :: 'k' :: []) else []))))) := by
    have : ∀ s : String, s = List.asString s.data := fun s => rfl
    rw [this (arch ++ "|" ++ name ++ "|" ++ version ++ "-r" ++ epoch ++
      (if apk then ".apk" else ""))]
    cases apk <;> simp [String.data_append]
  have hparse : parseManifest [arch ++ "|" ++ name ++ "|" ++ version ++ "-r" ++ epoch ++
      (if apk then ".apk" else "")] = .ok [(name, ⟨arch, epoch, version⟩)] := by
    rw [hline]
    cases hapk : apk with
    | false =>
      refine parseManifest_single_core arch name version epoch []
        ha hn hv1 hv2 he1 he2 (by simp) (by simp) ?_
      rw [List.append_nil]
      exact goTrimSuffix_apk_keep epoch.data (he3 hapk)
    | true =>
      exact parseManifest_single_core arch name version epoch
        ('.' :: 'a' :: 'p' :: 'k' :: []) ha hn hv1 hv2 he1 he2
        (by decide) (by decide) (goTrimSuffix_apk_strip epoch.data)
  refine ⟨addSubpackages o.Dir recipes [(name, ⟨arch, epoch, version⟩)], ?_, ?_⟩
  · simp only [getNewPackages, hparse, Except.map]
  · exact addSubpackages_lookup_single o.Dir recipes name ⟨arch, epoch, version⟩

/-- C3, witness: the spec's end-to-end line `x86_64|hello-world|0.0.2-r0.apk`
parses to `hello-world ↦ {x86_64, 0, 0.0.2}`. -/
theorem C3_manifest_line_roundtrip_witness :
    ∃ m, getNewPackages ⟨"packages.log", "/work", "/packages", "url"⟩ (fun _ => none)
        (.ok ["x86_64" ++ "|" ++ "hello-world" ++ "|" ++ "0.0.2" ++ "-r" ++ "0" ++
          (if true then ".apk" else "")]) = .ok m
      ∧ m.lookup "hello-world" = some ⟨"x86_64", "0", "0.0.2"⟩ :=
  C3_manifest_line_roundtrip ⟨"packages.log", "/work", "/packages", "url"⟩
    (fun _ => none) "x86_64" "hello-world" "0.0.2" "0" true
    (by decide) (by decide) (by decide) (by decide) (by decide) (by decide)
    (by intro h; exact absurd h (by decide))

end Wolfictl
